import Mathlib

/-!
# Verification of the tarant actor runtime core

A shallow embedding of the tarant in-process actor runtime
(mailbox, subscription processing, actor harness, actor system,
pub/sub topic) together with proofs about its behaviour.

The embedding follows the TypeScript sources:
* `lib/actor-system/actor.ts` (the harness, `Actor.onReceiveMessage`),
* `lib/mailbox/mailbox.ts`, `lib/mailbox/subscription.ts`,
  `lib/mailbox/message.ts`,
* `lib/actor-system/actor-system.ts` (`actorOf`, `actorFor`),
* `lib/actor-system/actor-proxy.ts` (`sendAndReturn`, `of`),
* `lib/pubsub/topic.ts` (`subscribe`, `unsubscribe`, `notify`).

JavaScript objects used as string-keyed dictionaries and `Map`s are
embedded as association lists (`List (String × α)`) in insertion order;
`uuid()` results are threaded as explicit parameters together with
freshness hypotheses.  Promise outcomes are `Except` values.
-/

deriving instance DecidableEq for Except

/-- Runtime values passed around in messages, results and exceptions. -/
inductive Value where
  | vstr : String → Value
  | vnat : Nat → Value
  | vunit : Value
  | verr : String → Value
deriving DecidableEq

/-- `ActorMessage` from `lib/actor-system/actor-message.ts`:
`(methodName, arguments, resolve, reject)`.  The resolve / reject
continuations are not stored; their invocations are recorded in the
event trace of the harness instead. -/
structure ActorMessage where
  methodName : String
  arguments : List Value
deriving DecidableEq

/-- `Message<T>` from `lib/mailbox/message.ts`: a partition key plus
content; immutable after construction (`Message.of`). -/
structure MailMessage where
  partition : String
  content : ActorMessage
deriving DecidableEq

/-- Events emitted while `Actor.onReceiveMessage` runs: materializer
hook invocations (by materializer index), the dispatch of the actor
method, settlement of the caller's promise, the supervisor
consultation and the mutations of the `busy` flag. -/
inductive Ev where
  | beforeHook : Nat → Ev
  | dispatch : Ev
  | resolveCall : Value → Ev
  | rejectCall : Value → Ev
  | errorHook : Nat → Ev
  | superviseCall : Ev
  | afterHook : Nat → Ev
  | setBusy : Bool → Ev
deriving DecidableEq

/-- Behaviour of one materializer for one message: the outcome of each
of its hooks when called (`.ok ()` returns normally, `.error e` throws
`e`).  The hook bodies are external code, so they are modelled by their
outcome. -/
structure MatBehavior where
  before : Except Value Unit
  onErr : Except Value Unit
  after : Except Value Unit

/-- `materializers.forEach((m) => m.hook(...))`: invoke the hooks in
order, stopping at (and propagating) the first exception.  Returns the
overall outcome and the trace of hook invocations starting at index
`i`. -/
def fanOutAux (mk : Nat → Ev) : Nat → List (Except Value Unit) → Except Value Unit × List Ev
  | _, [] => (Except.ok (), [])
  | i, h :: rest =>
    match h with
    | Except.ok _ =>
      let r := fanOutAux mk (i + 1) rest
      (r.1, mk i :: r.2)
    | Except.error e => (Except.error e, [mk i])

/-- Fan an event over the whole materializer list, starting at index 0. -/
def fanOut (mk : Nat → Ev) (hooks : List (Except Value Unit)) : Except Value Unit × List Ev :=
  fanOutAux mk 0 hooks

/-- The harness-relevant state of one actor: its id, the `busy` flag
and its method table.  `methods name = some f` models
`Reflect.has(this, name)` succeeding, with `f` the behaviour of
`Reflect.apply(this[name], this, args)` (returning or throwing /
rejecting). -/
structure ActorH where
  id : String
  busy : Bool
  methods : String → Option (List Value → Except Value Value)

/-- `Actor.dispatchAndPromisify` (`actor.ts`): look the method up; if
present apply it (synchronous throws and rejected promises both become
a rejection); otherwise reject with the method-not-found error. -/
def dispatchAndPromisify (a : ActorH) (m : ActorMessage) : Except Value Value :=
  match a.methods m.methodName with
  | some f => f m.arguments
  | none => Except.error (Value.verr ("Method " ++ m.methodName ++ " not found"))

/-- Completion state of a JavaScript block: fell through normally,
returned a boolean, or threw a value. -/
inductive Comp where
  | normal : Comp
  | ret : Bool → Comp
  | thr : Value → Comp
deriving DecidableEq

/-- Result of one `onReceiveMessage` call: the outcome of the returned
promise (`.ok b` fulfils with `b`, `.error e` rejects), the final
`busy` flag, the event trace, and the settlement of the caller's
promise (`none` if neither `resolve` nor `reject` was called). -/
structure RecvResult where
  outcome : Except Value Bool
  busy : Bool
  events : List Ev
  settlement : Option (Except Value Value)
deriving DecidableEq

/-- The `catch (ex)` block of `onReceiveMessage`: fan out `onError`
(whose own exception propagates), consult the supervisor, and branch on
the strategy string exactly as the source compares it. -/
def handleCatch (mats : List MatBehavior) (supervise : Value → String) (ex : Value)
    (pre : List Ev) : Comp × List Ev × Option (Except Value Value) :=
  match fanOut Ev.errorHook (mats.map (fun b => b.onErr)) with
  | (Except.error e, eevs) => (Comp.thr e, pre ++ eevs, none)
  | (Except.ok _, eevs) =>
    let evs := pre ++ eevs ++ [Ev.superviseCall]
    let strat := supervise ex
    if strat = "drop-message" then
      (Comp.ret true, evs ++ [Ev.rejectCall ex], some (Except.error ex))
    else if strat = "retry-message" then
      (Comp.ret false, evs, none)
    else
      (Comp.ret true, evs ++ [Ev.rejectCall ex], some (Except.error ex))

/-- The `try { ... } catch (ex) { ... }` part of `onReceiveMessage`
(before the `finally`): fan out `onBeforeMessage`, dispatch, resolve on
success; any exception (a hook throw or a dispatch rejection) enters
the catch block. -/
def recvTryCatch (mats : List MatBehavior) (supervise : Value → String)
    (dispatched : Except Value Value) : Comp × List Ev × Option (Except Value Value) :=
  match fanOut Ev.beforeHook (mats.map (fun b => b.before)) with
  | (Except.ok _, bevs) =>
    match dispatched with
    | Except.ok v => (Comp.normal, bevs ++ [Ev.dispatch, Ev.resolveCall v], some (Except.ok v))
    | Except.error ex => handleCatch mats supervise ex (bevs ++ [Ev.dispatch])
  | (Except.error e, bevs) => handleCatch mats supervise e bevs

/-- The `finally` block: clear `busy`, fan out `onAfterMessage`; an
exception thrown there replaces the pending completion (JavaScript
`finally` semantics). -/
def applyFinally (c : Comp) (mats : List MatBehavior) : Comp × List Ev :=
  match fanOut Ev.afterHook (mats.map (fun b => b.after)) with
  | (Except.ok _, aevs) => (c, Ev.setBusy false :: aevs)
  | (Except.error e, aevs) => (Comp.thr e, Ev.setBusy false :: aevs)

/-- Map the completion of the whole function body to the promise
outcome; falling through reaches the final `return true` of the
source. -/
def compToOutcome : Comp → Except Value Bool
  | Comp.normal => Except.ok true
  | Comp.ret b => Except.ok b
  | Comp.thr e => Except.error e

/-- `Actor.onReceiveMessage` (`actor.ts`, lines 97–129): the busy
guard, `busy = true`, the try / catch / finally and the trailing
`return true`, with every hook invocation, promise settlement and busy
mutation recorded in the event trace. -/
def onReceiveMessage (a : ActorH) (mats : List MatBehavior) (supervise : Value → String)
    (msg : MailMessage) : RecvResult :=
  if a.busy then
    ⟨Except.ok false, a.busy, [], none⟩
  else
    let core := recvTryCatch mats supervise (dispatchAndPromisify a msg.content)
    let fin := applyFinally core.1 mats
    ⟨compToOutcome fin.1, false, Ev.setBusy true :: core.2.1 ++ fin.2, core.2.2⟩

/-- `obj[k]` on a JavaScript object embedded as an association list:
the value under the first matching key, if any. -/
def getKey (l : List (String × α)) (k : String) : Option α :=
  match l with
  | [] => none
  | kv :: rest => if kv.1 = k then some kv.2 else getKey rest k

/-- `obj[k] = v` / `Map.set(k, v)`: overwrite the entry in place if the
key is present, otherwise append it (JavaScript insertion order; keys
are unique in JavaScript objects and `Map`s). -/
def setKey : List (String × α) → String → α → List (String × α)
  | [], k, v => [(k, v)]
  | kv :: rest, k, v => if kv.1 = k then (k, v) :: rest else kv :: setKey rest k v

/-- `delete obj[k]` / `Map.delete(k)`. -/
def deleteKey : List (String × α) → String → List (String × α)
  | [], _ => []
  | kv :: rest, k => if kv.1 = k then deleteKey rest k else kv :: deleteKey rest k

/-- `Subscription<T>` from `lib/mailbox/subscription.ts`: its id and
its ordered message queue.  The subscriber reference it carries is
modelled separately, as the `recv` oracle handed to the processing
functions. -/
structure Subscription where
  id : String
  queue : List MailMessage
deriving DecidableEq

/-- `Subscription.process`: look at the head of the queue; if the
queue is non-empty, invoke `subscriber.onReceiveMessage` on the head
and drop the head exactly when the result is `true`.  Returns the
updated subscription and the list of messages the subscriber was
invoked on. -/
def Subscription.process (recv : MailMessage → Bool) (s : Subscription) :
    Subscription × List MailMessage :=
  match s.queue with
  | [] => (s, [])
  | m :: rest => if recv m then (⟨s.id, rest⟩, [m]) else (s, [m])

/-- Iterated polling of one subscription: `n` successive
`Subscription.process` calls, collecting every message the subscriber
was invoked on. -/
def Subscription.processN (recv : MailMessage → Bool) :
    Nat → Subscription → Subscription × List MailMessage
  | 0, s => (s, [])
  | n + 1, s =>
    let step := Subscription.process recv s
    let rest := Subscription.processN recv n step.1
    (rest.1, step.2 ++ rest.2)

/-- `Mailbox<T>` from `lib/mailbox/mailbox.ts`: the map from
subscription ids to the partitions they subscribed
(`subscribedPartitions`) and the map from partitions to their
subscription lists (`subscriptions`). -/
structure Mailbox where
  subscribedPartitions : List (String × List String)
  subscriptions : List (String × List Subscription)
deriving DecidableEq

/-- One step of the `partitions.forEach` in `Mailbox.addSubscriber`:
`subscriptions[p] = subscriptions[p] || []` followed by pushing a new
`Subscription` with the fresh id and an empty queue. -/
def addPartition (freshId : String) (subs : List (String × List Subscription)) (p : String) :
    List (String × List Subscription) :=
  setKey subs p ((getKey subs p).getD [] ++ [⟨freshId, []⟩])

/-- `Mailbox.addSubscriber`, with the fresh uuid passed explicitly:
record the subscriber's partitions under the new id, and append a new
`Subscription` (with its own empty queue) to each declared partition's
list, creating the list when absent. -/
def Mailbox.addSubscriber (mb : Mailbox) (freshId : String) (partitions : List String) :
    Mailbox :=
  { subscribedPartitions := setKey mb.subscribedPartitions freshId partitions
    subscriptions := partitions.foldl (addPartition freshId) mb.subscriptions }

/-- Result of a mailbox mutation that can throw: the mailbox state at
the point the exception escaped (unchanged parts included) and whether
it threw. -/
structure RemoveOut where
  mb : Mailbox
  threw : Bool
deriving DecidableEq

/-- The `partitions.forEach` loop of `Mailbox.removeSubscription`
followed by the `delete`: each recorded partition's list is replaced by
the list without the removed id; reading a missing partition list
throws (`undefined.filter`), leaving the state mutated so far. -/
def Mailbox.removeGo (sid : String) : List String → Mailbox → RemoveOut
  | [], mb => ⟨{ mb with subscribedPartitions := deleteKey mb.subscribedPartitions sid }, false⟩
  | p :: rest, mb =>
    match getKey mb.subscriptions p with
    | none => ⟨mb, true⟩
    | some subs =>
      Mailbox.removeGo sid rest
        { mb with subscriptions := setKey mb.subscriptions p (subs.filter (fun s => ¬s.id = sid)) }

/-- `Mailbox.removeSubscription`: look the id's partition list up —
iterating a missing list throws immediately, with no mutation — then
filter the id out of every recorded partition and erase the id's
entry. -/
def Mailbox.removeSubscription (mb : Mailbox) (sid : String) : RemoveOut :=
  match getKey mb.subscribedPartitions sid with
  | none => ⟨mb, true⟩
  | some parts => Mailbox.removeGo sid parts mb

/-- `Mailbox.push`: look the partition's subscription list up —
missing partitions throw (`undefined.forEach`) — and append the
message to every subscription's queue in that list. -/
def Mailbox.push (mb : Mailbox) (m : MailMessage) : Option Mailbox :=
  match getKey mb.subscriptions m.partition with
  | none => none
  | some subs =>
    some
      { mb with
        subscriptions :=
          setKey mb.subscriptions m.partition
            (subs.map (fun s => ⟨s.id, s.queue ++ [m]⟩)) }

/-- Result of a `poll`: the mailbox afterwards, the messages
subscribers were invoked on, and whether a missing partition list made
it throw. -/
structure PollOut where
  mb : Mailbox
  invoked : List MailMessage
  threw : Bool
deriving DecidableEq

/-- The `partitions.forEach` loop of `Mailbox.poll`: for each recorded
partition, process every subscription in that partition whose id
matches; a missing partition list throws
(`undefined.filter`). -/
def Mailbox.pollGo (recv : MailMessage → Bool) (sid : String) :
    List String → Mailbox → PollOut
  | [], mb => ⟨mb, [], false⟩
  | p :: rest, mb =>
    match getKey mb.subscriptions p with
    | none => ⟨mb, [], true⟩
    | some subs =>
      let processed := subs.map (fun s =>
        if s.id = sid then Subscription.process recv s else (s, []))
      let mb' :=
        { mb with subscriptions := setKey mb.subscriptions p (processed.map (fun x => x.1)) }
      let out := Mailbox.pollGo recv sid rest mb'
      ⟨out.mb, (processed.map (fun x => x.2)).flatten ++ out.invoked, out.threw⟩

/-- `Mailbox.poll`: an unknown subscription id returns without work;
otherwise process the matching subscription of every recorded
partition. -/
def Mailbox.poll (recv : MailMessage → Bool) (mb : Mailbox) (sid : String) : PollOut :=
  match getKey mb.subscribedPartitions sid with
  | none => ⟨mb, [], false⟩
  | some parts => Mailbox.pollGo recv sid parts mb

/-- The registry-relevant data of an actor instance: its id and the
partitions it declares (the `Actor` base constructor always sets
`partitions = [id]`). -/
structure ActorInst where
  id : String
  partitions : List String
deriving DecidableEq

/-- The registry state of `ActorSystem`: `actors` (`Map` id →
instance), `subscriptions` (`Map` actor id → mailbox subscription id)
and the mailbox itself. -/
structure SysState where
  actors : List (String × ActorInst)
  subscriptions : List (String × String)
  mailbox : Mailbox
deriving DecidableEq

/-- `ActorSystem.actorOf` (state part, fresh uuid explicit): register
the new instance as a mailbox subscriber, record it under its id and
keep the subscription id indexed by the actor id.  The returned proxy
wraps `inst`. -/
def ActorSystem.actorOf (st : SysState) (inst : ActorInst) (freshSub : String) : SysState :=
  { actors := setKey st.actors inst.id inst
    subscriptions := setKey st.subscriptions inst.id freshSub
    mailbox := Mailbox.addSubscriber st.mailbox freshSub inst.partitions }

/-- The resolver loop of `ActorSystem.actorFor`: try each resolver in
registration order, absorbing rejections; the first fulfilment wins. -/
def firstResolved : List (Except Value ActorInst) → Option ActorInst
  | [] => none
  | Except.ok a :: _ => some a
  | Except.error _ :: rest => firstResolved rest

/-- `ActorSystem.actorFor` (state part): a locally registered id
returns a fresh proxy over the existing instance without touching the
state; otherwise the resolver chain is consulted, a resolved instance
is installed (registry entry under the requested id, subscription
keyed by the instance's own id, mailbox subscription) and returned as
a proxy; if every resolver rejects the call rejects with the literal
resolution-failure message. -/
def ActorSystem.actorFor (st : SysState) (id : String)
    (resolvers : List (Except Value ActorInst)) (freshSub : String) :
    Except String (SysState × ActorInst) :=
  match getKey st.actors id with
  | some inst => Except.ok (st, inst)
  | none =>
    match firstResolved resolvers with
    | none => Except.error ("unable to resolve actor " ++ id)
    | some inst =>
      Except.ok
        ({ actors := setKey st.actors id inst
           subscriptions := setKey st.subscriptions inst.id freshSub
           mailbox := Mailbox.addSubscriber st.mailbox freshSub inst.partitions },
          inst)

/-- A JavaScript reference to an actor as stored or invoked at
runtime: either the raw instance or an `ActorProxy.of` wrapper around
it. -/
inductive ActorVal where
  | raw : String → ActorVal
  | proxy : String → ActorVal
deriving DecidableEq

/-- An entry of a topic's subscription map: the stored reference and
the method names at which the underlying actor exposes a callable
(`typeof subscriber[name] === 'function'`). -/
structure SubEntry where
  value : ActorVal
  methods : List String
deriving DecidableEq

/-- The state of a `Topic<P>` actor: its id (`topics/<name>`) and its
subscription map. -/
structure TopicState where
  id : String
  subscriptions : List (String × SubEntry)
deriving DecidableEq

/-- `Topic.for`: the topic actor's id is `topics/<name>` with an empty
subscription map. -/
def Topic.forName (topicName : String) : TopicState :=
  ⟨"topics/" ++ topicName, []⟩

/-- `Topic.subscribe`: store the given reference under a fresh id and
return the id. -/
def Topic.subscribe (t : TopicState) (freshId : String) (entry : SubEntry) :
    TopicState × String :=
  ({ t with subscriptions := setKey t.subscriptions freshId entry }, freshId)

/-- `Topic.unsubscribe`: `Map.delete`; unknown ids are a no-op. -/
def Topic.unsubscribe (t : TopicState) (sid : String) : TopicState :=
  { t with subscriptions := deleteKey t.subscriptions sid }

/-- The argument `Actor.subscribeToTopic` passes to `topic.subscribe`
inside its zero-delay deferral: the source passes `this` — the raw
actor instance (the receiver of the constructor or of
`Reflect.apply` in dispatch is always the raw instance) — not the
`self` proxy installed by `setupInstance`. -/
def subscribeToTopicArg (selfId : String) : ActorVal :=
  ActorVal.raw selfId

/-- A direct (same-context, synchronous) invocation of a method on an
actor object, as performed by `method.apply(subscriber, args)`. -/
structure DirectCall where
  target : String
  methodName : String
  arguments : List Value
deriving DecidableEq

/-- The `subscriptions.forEach` of `Topic.notify`: for every stored
subscriber exposing a callable at `methodName`, invoke it.  On a raw
reference the lookup yields the actor's own method and `apply` runs it
directly in the topic's context; on a proxy reference the lookup
yields the `ActorProxy.of` wrapper, whose invocation pushes
`Message.of(actor.id, ActorMessage.of(methodName, args))` into the
mailbox (`ActorProxy.sendAndReturn`).  Returns the direct calls and
the mailbox pushes, in map iteration order. -/
def notifyGo (m : String) (args : List Value) :
    List (String × SubEntry) → List DirectCall × List MailMessage
  | [] => ([], [])
  | (_, e) :: rest =>
    let tail := notifyGo m args rest
    if m ∈ e.methods then
      match e.value with
      | ActorVal.raw aid => (⟨aid, m, args⟩ :: tail.1, tail.2)
      | ActorVal.proxy aid => (tail.1, ⟨aid, ⟨m, args⟩⟩ :: tail.2)
    else tail

/-- `Topic.notify(methodName, ...args)`. -/
def Topic.notify (t : TopicState) (m : String) (args : List Value) :
    List DirectCall × List MailMessage :=
  notifyGo m args t.subscriptions

/-- The event trace of `n` successive hook invocations starting at
materializer index `i`. -/
def hookEvs (mk : Nat → Ev) : Nat → Nat → List Ev
  | _, 0 => []
  | i, n + 1 => mk i :: hookEvs mk (i + 1) n

/-- The number of `Subscription`s with the given id across a list of
partition buckets. -/
def countSubsL (l : List (String × List Subscription)) (sid : String) : Nat :=
  match l with
  | [] => 0
  | pr :: rest => (pr.2.filter (fun s => s.id = sid)).length + countSubsL rest sid

/-- The number of `Subscription`s with the given id across every
partition bucket of the mailbox. -/
def countSubs (mb : Mailbox) (sid : String) : Nat :=
  countSubsL mb.subscriptions sid

/-- The registry / mailbox consistency invariant of the actor system:
partition-bucket keys are duplicate-free; registry entries are keyed
by the instance's id and declare the default partition `[id]`; every
registered actor's subscription-map entry names the unique mailbox
`Subscription` carrying that id, which sits in the bucket of the
actor's partition; and every `Subscription` in any bucket is still
referenced by the subscription map (no orphans). -/
def SysInv (st : SysState) : Prop :=
  (st.mailbox.subscriptions.map Prod.fst).Nodup
  ∧ (∀ pr ∈ st.actors, pr.1 = pr.2.id ∧ pr.2.partitions = [pr.2.id])
  ∧ (∀ pr ∈ st.actors, ∃ sid,
      getKey st.subscriptions pr.1 = some sid
      ∧ countSubs st.mailbox sid = 1
      ∧ ∃ subs, getKey st.mailbox.subscriptions pr.1 = some subs
          ∧ sid ∈ subs.map Subscription.id)
  ∧ (∀ pr ∈ st.mailbox.subscriptions, ∀ s ∈ pr.2, ∃ aid, (aid, s.id) ∈ st.subscriptions)

theorem getKey_setKey_self (l : List (String × α)) (k : String) (v : α) :
    getKey (setKey l k v) k = some v := by
  induction l with
  | nil => simp [setKey, getKey]
  | cons kv rest ih =>
    by_cases h : kv.1 = k
    · simp [setKey, h, getKey]
    · simp [setKey, h, getKey, ih]

theorem getKey_setKey_ne (l : List (String × α)) (k k' : String) (v : α) (h : k' ≠ k) :
    getKey (setKey l k v) k' = getKey l k' := by
  have hkk : k ≠ k' := Ne.symm h
  induction l with
  | nil => simp [setKey, getKey, hkk]
  | cons kv rest ih =>
    by_cases hk : kv.1 = k
    · have hne : kv.1 ≠ k' := by rw [hk]; exact hkk
      simp [setKey, hk, getKey, hkk, hne]
    · by_cases hk' : kv.1 = k'
      · simp [setKey, hk, getKey, hk', h]
      · simp [setKey, hk, getKey, hk', ih]

theorem mem_setKey_elim (l : List (String × α)) (k : String) (v : α) (pr : String × α)
    (h : pr ∈ setKey l k v) : pr = (k, v) ∨ pr ∈ l := by
  induction l with
  | nil => simpa [setKey] using h
  | cons kv rest ih =>
    by_cases hk : kv.1 = k
    · simp only [setKey, hk, if_pos] at h
      rcases List.mem_cons.mp h with h1 | h1
      · exact Or.inl h1
      · exact Or.inr (List.mem_cons_of_mem _ h1)
    · simp only [setKey, hk, if_neg, not_false_iff] at h
      rcases List.mem_cons.mp h with h1 | h1
      · exact Or.inr (h1 ▸ List.mem_cons_self _ _)
      · rcases ih h1 with h2 | h2
        · exact Or.inl h2
        · exact Or.inr (List.mem_cons_of_mem _ h2)

theorem mem_setKey_of_ne (l : List (String × α)) (k : String) (v : α) (pr : String × α)
    (hm : pr ∈ l) (h : pr.1 ≠ k) : pr ∈ setKey l k v := by
  induction l with
  | nil => cases hm
  | cons kv rest ih =>
    by_cases hk : kv.1 = k
    · rcases List.mem_cons.mp hm with h1 | h1
      · exact absurd (h1 ▸ hk) h
      · simp only [setKey, hk, if_pos]
        exact List.mem_cons_of_mem _ h1
    · rcases List.mem_cons.mp hm with h1 | h1
      · simp only [setKey, hk, if_neg, not_false_iff]
        exact h1 ▸ List.mem_cons_self _ _
      · simp only [setKey, hk, if_neg, not_false_iff]
        exact List.mem_cons_of_mem _ (ih h1)

theorem setKey_of_fresh (l : List (String × α)) (k : String) (v : α)
    (h : getKey l k = none) : setKey l k v = l ++ [(k, v)] := by
  induction l with
  | nil => simp [setKey]
  | cons kv rest ih =>
    by_cases hk : kv.1 = k
    · simp [getKey, hk] at h
    · simp only [getKey, hk, if_neg, not_false_iff] at h
      simp [setKey, hk, ih h]

theorem getKey_deleteKey_self (l : List (String × α)) (k : String) :
    getKey (deleteKey l k) k = none := by
  induction l with
  | nil => simp [deleteKey, getKey]
  | cons kv rest ih =>
    by_cases hk : kv.1 = k
    · simp [deleteKey, hk, ih]
    · simp [deleteKey, hk, getKey, ih]

theorem getKey_deleteKey_ne (l : List (String × α)) (k k' : String) (h : k' ≠ k) :
    getKey (deleteKey l k) k' = getKey l k' := by
  induction l with
  | nil => simp [deleteKey]
  | cons kv rest ih =>
    by_cases hk : kv.1 = k
    · have hne : kv.1 ≠ k' := by rw [hk]; exact Ne.symm h
      have hkk : k ≠ k' := Ne.symm h
      simp [deleteKey, hk, getKey, hne, hkk, ih]
    · simp only [deleteKey, hk, if_neg, not_false_iff]
      by_cases hk' : kv.1 = k'
      · simp [getKey, hk']
      · simp [getKey, hk', ih]

theorem mem_deleteKey_elim (l : List (String × α)) (k : String) (pr : String × α)
    (h : pr ∈ deleteKey l k) : pr ∈ l := by
  induction l with
  | nil => simp [deleteKey] at h
  | cons kv rest ih =>
    by_cases hk : kv.1 = k
    · simp only [deleteKey, hk, if_pos] at h
      exact List.mem_cons_of_mem _ (ih h)
    · simp only [deleteKey, hk, if_neg, not_false_iff] at h
      rcases List.mem_cons.mp h with h1 | h1
      · exact h1 ▸ List.mem_cons_self _ _
      · exact List.mem_cons_of_mem _ (ih h1)

theorem getKey_eq_none_of_forall (l : List (String × α)) (k : String)
    (h : ∀ pr ∈ l, pr.1 ≠ k) : getKey l k = none := by
  induction l with
  | nil => simp [getKey]
  | cons kv rest ih =>
    simp only [getKey, h kv (List.mem_cons_self _ _), if_neg, not_false_iff]
    exact ih (fun pr hpr => h pr (List.mem_cons_of_mem _ hpr))

theorem isSome_getKey_setKey (l : List (String × α)) (k p : String) (v : α)
    (h : (getKey l p).isSome = true) : (getKey (setKey l k v) p).isSome = true := by
  by_cases hp : p = k
  · subst hp
    simp [getKey_setKey_self]
  · rw [getKey_setKey_ne l k p v hp]
    exact h

theorem fanOutAux_allOk (mk : Nat → Ev) (hs : List (Except Value Unit))
    (h : ∀ x ∈ hs, x = Except.ok ()) :
    ∀ i, fanOutAux mk i hs = (Except.ok (), hookEvs mk i hs.length) := by
  induction hs with
  | nil => intro i; simp [fanOutAux, hookEvs]
  | cons x rest ih =>
    intro i
    have hx : x = Except.ok () := h x (List.mem_cons_self _ _)
    subst hx
    simp only [fanOutAux, List.length_cons, hookEvs]
    rw [ih (fun y hy => h y (List.mem_cons_of_mem _ hy)) (i + 1)]

theorem fanOutAux_firstError (mk : Nat → Ev) (pre post : List (Except Value Unit)) (e : Value)
    (h : ∀ x ∈ pre, x = Except.ok ()) :
    ∀ i, fanOutAux mk i (pre ++ Except.error e :: post) =
      (Except.error e, hookEvs mk i pre.length ++ [mk (i + pre.length)]) := by
  induction pre with
  | nil => intro i; simp [fanOutAux, hookEvs]
  | cons x rest ih =>
    intro i
    have hx : x = Except.ok () := h x (List.mem_cons_self _ _)
    subst hx
    have hrest := ih (fun y hy => h y (List.mem_cons_of_mem _ hy)) (i + 1)
    have harith : i + 1 + rest.length = i + (rest.length + 1) := by omega
    rw [List.cons_append]
    simp only [fanOutAux, hrest, List.length_cons, hookEvs, harith]
    simp

theorem mem_fanOutAux (mk : Nat → Ev) (hs : List (Except Value Unit)) :
    ∀ i e, e ∈ (fanOutAux mk i hs).2 → ∃ j, e = mk j := by
  induction hs with
  | nil => intro i e h; simp [fanOutAux] at h
  | cons x rest ih =>
    intro i e h
    cases x with
    | ok u =>
      simp only [fanOutAux] at h
      rcases List.mem_cons.mp h with h1 | h1
      · exact ⟨i, h1⟩
      · exact ih (i + 1) e h1
    | error ex =>
      simp only [fanOutAux] at h
      rcases List.mem_cons.mp h with h1 | h1
      · exact ⟨i, h1⟩
      · cases h1

theorem mem_hookEvs (mk : Nat → Ev) : ∀ i n e, e ∈ hookEvs mk i n → ∃ j, e = mk j := by
  intro i n
  induction n generalizing i with
  | zero => intro e h; simp [hookEvs] at h
  | succ n ih =>
    intro e h
    rcases List.mem_cons.mp h with h1 | h1
    · exact ⟨i, h1⟩
    · exact ih (i + 1) e h1

theorem getKey_some_mem (l : List (String × α)) (k : String) (v : α)
    (h : getKey l k = some v) : (k, v) ∈ l := by
  induction l with
  | nil => simp [getKey] at h
  | cons kv rest ih =>
    by_cases hk : kv.1 = k
    · simp only [getKey, hk, if_pos, Option.some.injEq] at h
      obtain ⟨a, b⟩ := kv
      simp only at hk
      subst hk
      subst h
      exact List.mem_cons_self _ _
    · simp only [getKey, hk, if_neg, not_false_iff] at h
      exact List.mem_cons_of_mem _ (ih h)

theorem getKey_none_forall (l : List (String × α)) (k : String)
    (h : getKey l k = none) : ∀ pr ∈ l, pr.1 ≠ k := by
  induction l with
  | nil => intro pr hpr; cases hpr
  | cons kv rest ih =>
    by_cases hk : kv.1 = k
    · simp [getKey, hk] at h
    · simp only [getKey, hk, if_neg, not_false_iff] at h
      intro pr hpr
      rcases List.mem_cons.mp hpr with h1 | h1
      · exact h1 ▸ hk
      · exact ih h pr h1

theorem self_mem_setKey (l : List (String × α)) (k : String) (v : α) :
    (k, v) ∈ setKey l k v := by
  induction l with
  | nil => simp [setKey]
  | cons kv rest ih =>
    by_cases hk : kv.1 = k
    · simp [setKey, hk]
    · simp only [setKey, hk, if_neg, not_false_iff]
      exact List.mem_cons_of_mem _ ih

theorem keys_setKey_isSome (l : List (String × α)) (k : String) (v : α)
    (h : (getKey l k).isSome = true) :
    (setKey l k v).map Prod.fst = l.map Prod.fst := by
  induction l with
  | nil => simp [getKey] at h
  | cons kv rest ih =>
    by_cases hk : kv.1 = k
    · simp [setKey, hk]
    · simp only [getKey, hk, if_neg, not_false_iff] at h
      simp [setKey, hk, ih h]

theorem nodup_keys_setKey (l : List (String × α)) (k : String) (v : α)
    (h : (l.map Prod.fst).Nodup) : ((setKey l k v).map Prod.fst).Nodup := by
  cases hk : getKey l k with
  | some w =>
    rw [keys_setKey_isSome l k v (by simp [hk])]
    exact h
  | none =>
    rw [setKey_of_fresh l k v hk]
    have hnk : k ∉ l.map Prod.fst := by
      intro hmem
      obtain ⟨pr, hpr, hfst⟩ := List.mem_map.mp hmem
      exact getKey_none_forall l k hk pr hpr hfst
    simp [List.nodup_append, h, hnk]

theorem mem_setKey_nodup_elim (l : List (String × α)) (k : String) (v : α)
    (pr : String × α) (hnd : (l.map Prod.fst).Nodup) (h : pr ∈ setKey l k v) :
    pr = (k, v) ∨ (pr ∈ l ∧ pr.1 ≠ k) := by
  induction l with
  | nil =>
    simp only [setKey, List.mem_singleton] at h
    exact Or.inl h
  | cons kv rest ih =>
    simp only [List.map_cons, List.nodup_cons] at hnd
    by_cases hk : kv.1 = k
    · simp only [setKey, hk, if_pos] at h
      rcases List.mem_cons.mp h with h1 | h1
      · exact Or.inl h1
      · refine Or.inr ⟨List.mem_cons_of_mem _ h1, ?_⟩
        intro hkk
        exact hnd.1 (hk ▸ hkk ▸ List.mem_map_of_mem Prod.fst h1)
    · simp only [setKey, hk, if_neg, not_false_iff] at h
      rcases List.mem_cons.mp h with h1 | h1
      · exact Or.inr ⟨h1 ▸ List.mem_cons_self _ _, h1 ▸ hk⟩
      · rcases ih hnd.2 h1 with h2 | h2
        · exact Or.inl h2
        · exact Or.inr ⟨List.mem_cons_of_mem _ h2.1, h2.2⟩

theorem addPartition_getKey_self (f : String) (l : List (String × List Subscription))
    (p : String) :
    getKey (addPartition f l p) p = some ((getKey l p).getD [] ++ [⟨f, []⟩]) :=
  getKey_setKey_self l p _

theorem addPartition_getKey_ne (f : String) (l : List (String × List Subscription))
    (p q : String) (h : q ≠ p) : getKey (addPartition f l p) q = getKey l q :=
  getKey_setKey_ne l p q _ h

theorem nodup_addPartition (f : String) (l : List (String × List Subscription)) (p : String)
    (h : (l.map Prod.fst).Nodup) : ((addPartition f l p).map Prod.fst).Nodup :=
  nodup_keys_setKey l p _ h

theorem countSubsL_addPartition (f : String) (l : List (String × List Subscription))
    (p sid : String) :
    countSubsL (addPartition f l p) sid =
      countSubsL l sid + (if f = sid then 1 else 0) := by
  induction l with
  | nil =>
    simp only [addPartition, getKey, setKey, Option.getD_none, List.nil_append, countSubsL]
    by_cases hf : f = sid <;> simp [hf]
  | cons kv rest ih =>
    by_cases hk : kv.1 = p
    · simp only [addPartition, getKey, hk, if_pos, Option.getD_some, setKey, countSubsL,
        List.filter_append]
      by_cases hf : f = sid
      · simp [hf, List.filter]
        try omega
      · simp [hf, List.filter]
        try omega
    · have hstep : addPartition f (kv :: rest) p = kv :: addPartition f rest p := by
        simp [addPartition, getKey, setKey, hk]
      rw [hstep]
      simp only [countSubsL, ih]
      omega

theorem mem_filter_id_ne (subs : List Subscription) (sid : String) (s : Subscription)
    (h : s ∈ subs.filter (fun s => ¬s.id = sid)) : s.id ≠ sid := by
  have := List.of_mem_filter h
  simpa using this

theorem removeGo_clean (sid : String) :
    ∀ (ps : List String) (mb : Mailbox),
      (mb.subscriptions.map Prod.fst).Nodup →
      (∀ p ∈ ps, (getKey mb.subscriptions p).isSome = true) →
      (∀ pr ∈ mb.subscriptions, pr.1 ∉ ps → ∀ s ∈ pr.2, s.id ≠ sid) →
      (Mailbox.removeGo sid ps mb).threw = false
      ∧ (Mailbox.removeGo sid ps mb).mb.subscribedPartitions
          = deleteKey mb.subscribedPartitions sid
      ∧ ∀ pr ∈ (Mailbox.removeGo sid ps mb).mb.subscriptions, ∀ s ∈ pr.2, s.id ≠ sid := by
  intro ps
  induction ps with
  | nil =>
    intro mb _ _ h2
    refine ⟨rfl, rfl, ?_⟩
    intro pr hpr s hs
    exact h2 pr hpr (by simp) s hs
  | cons p rest ih =>
    intro mb hnd h1 h2
    obtain ⟨subs, hsubs⟩ := Option.isSome_iff_exists.mp (h1 p (List.mem_cons_self _ _))
    have hred : Mailbox.removeGo sid (p :: rest) mb =
        Mailbox.removeGo sid rest
          { mb with
            subscriptions := setKey mb.subscriptions p (subs.filter (fun s => ¬s.id = sid)) } := by
      simp [Mailbox.removeGo, hsubs]
    rw [hred]
    have hnd1 : ((setKey mb.subscriptions p
        (subs.filter (fun s => ¬s.id = sid))).map Prod.fst).Nodup := by
      rw [keys_setKey_isSome mb.subscriptions p _ (by simp [hsubs])]
      exact hnd
    have h11 : ∀ q ∈ rest,
        (getKey (setKey mb.subscriptions p (subs.filter (fun s => ¬s.id = sid))) q).isSome
          = true := by
      intro q hq
      exact isSome_getKey_setKey mb.subscriptions p q _ (h1 q (List.mem_cons_of_mem _ hq))
    have h21 : ∀ pr ∈ setKey mb.subscriptions p (subs.filter (fun s => ¬s.id = sid)),
        pr.1 ∉ rest → ∀ s ∈ pr.2, s.id ≠ sid := by
      intro pr hpr hnr s hs
      rcases mem_setKey_nodup_elim mb.subscriptions p _ pr hnd hpr with h3 | h3
      · subst h3
        exact mem_filter_id_ne subs sid s hs
      · refine h2 pr h3.1 ?_ s hs
        intro hmem
        rcases List.mem_cons.mp hmem with h4 | h4
        · exact h3.2 h4
        · exact hnr h4
    obtain ⟨hthrew, hsp, hclean⟩ :=
      ih { mb with
            subscriptions := setKey mb.subscriptions p (subs.filter (fun s => ¬s.id = sid)) }
        hnd1 h11 h21
    exact ⟨hthrew, hsp, hclean⟩

theorem removeGo_sp (sid : String) :
    ∀ (ps : List String) (mb : Mailbox),
      (Mailbox.removeGo sid ps mb).threw = false →
      (Mailbox.removeGo sid ps mb).mb.subscribedPartitions
        = deleteKey mb.subscribedPartitions sid := by
  intro ps
  induction ps with
  | nil => intro mb _; rfl
  | cons p rest ih =>
    intro mb hth
    cases hgk : getKey mb.subscriptions p with
    | none => simp [Mailbox.removeGo, hgk] at hth
    | some subs =>
      have hred : Mailbox.removeGo sid (p :: rest) mb =
          Mailbox.removeGo sid rest
            { mb with
              subscriptions :=
                setKey mb.subscriptions p (subs.filter (fun s => ¬s.id = sid)) } := by
        simp [Mailbox.removeGo, hgk]
      rw [hred] at hth ⊢
      exact ih _ hth

theorem foldAdd_isSome (f : String) :
    ∀ (ps : List String) (l : List (String × List Subscription)) (q : String),
      (getKey l q).isSome = true →
      (getKey (ps.foldl (addPartition f) l) q).isSome = true := by
  intro ps
  induction ps with
  | nil => intro l q h; exact h
  | cons p rest ih =>
    intro l q h
    simp only [List.foldl_cons]
    refine ih _ q ?_
    by_cases hq : q = p
    · subst hq
      simp [addPartition, getKey_setKey_self]
    · rw [addPartition_getKey_ne f l p q hq]
      exact h

theorem foldAdd_bucket_isSome (f : String) :
    ∀ (ps : List String) (l : List (String × List Subscription)) (p : String), p ∈ ps →
      (getKey (ps.foldl (addPartition f) l) p).isSome = true := by
  intro ps
  induction ps with
  | nil => intro l p h; cases h
  | cons p' rest ih =>
    intro l p h
    simp only [List.foldl_cons]
    rcases List.mem_cons.mp h with h1 | h1
    · subst h1
      refine foldAdd_isSome f rest _ p ?_
      simp [addPartition, getKey_setKey_self]
    · exact ih _ p h1

theorem foldAdd_mem_elim (f : String) :
    ∀ (ps : List String) (l : List (String × List Subscription)) (pr : String × List Subscription),
      pr ∈ ps.foldl (addPartition f) l → pr.1 ∈ ps ∨ pr ∈ l := by
  intro ps
  induction ps with
  | nil => intro l pr h; exact Or.inr h
  | cons p rest ih =>
    intro l pr h
    simp only [List.foldl_cons] at h
    rcases ih _ pr h with h1 | h1
    · exact Or.inl (List.mem_cons_of_mem _ h1)
    · rcases mem_setKey_elim l p _ pr h1 with h2 | h2
      · exact Or.inl (h2 ▸ List.mem_cons_self _ _)
      · exact Or.inr h2

theorem foldAdd_nodup (f : String) :
    ∀ (ps : List String) (l : List (String × List Subscription)),
      (l.map Prod.fst).Nodup → ((ps.foldl (addPartition f) l).map Prod.fst).Nodup := by
  intro ps
  induction ps with
  | nil => intro l h; exact h
  | cons p rest ih =>
    intro l h
    simp only [List.foldl_cons]
    exact ih _ (nodup_addPartition f l p h)

theorem processN_nil (recv : MailMessage → Bool) (sid : String) :
    ∀ n, Subscription.processN recv n ⟨sid, []⟩ = (⟨sid, []⟩, []) := by
  intro n
  induction n with
  | zero => rfl
  | succ n ih => simp [Subscription.processN, Subscription.process, ih]

theorem processN_true (sid : String) :
    ∀ (q : List MailMessage) (n : Nat), q.length ≤ n →
      Subscription.processN (fun _ => true) n ⟨sid, q⟩ = (⟨sid, []⟩, q) := by
  intro q
  induction q with
  | nil => intro n _; exact processN_nil _ sid n
  | cons m rest ih =>
    intro n hn
    cases n with
    | zero => simp at hn
    | succ k =>
      have hk : rest.length ≤ k := by simpa using hn
      simp [Subscription.processN, Subscription.process, ih k hk]

theorem firstResolved_all_errors (rs : List (Except Value ActorInst))
    (h : ∀ r ∈ rs, ∃ e, r = Except.error e) : firstResolved rs = none := by
  induction rs with
  | nil => rfl
  | cons r rest ih =>
    obtain ⟨e, he⟩ := h r (List.mem_cons_self _ _)
    subst he
    simp only [firstResolved]
    exact ih (fun r hr => h r (List.mem_cons_of_mem _ hr))

theorem firstResolved_first_ok (pre rest : List (Except Value ActorInst)) (x : ActorInst)
    (h : ∀ r ∈ pre, ∃ e, r = Except.error e) :
    firstResolved (pre ++ Except.ok x :: rest) = some x := by
  induction pre with
  | nil => rfl
  | cons r pre' ih =>
    obtain ⟨e, he⟩ := h r (List.mem_cons_self _ _)
    subst he
    simp only [List.cons_append, firstResolved]
    exact ih (fun r hr => h r (List.mem_cons_of_mem _ hr))

theorem not_mem_hookEvs (mk : Nat → Ev) (e : Ev) (hne : ∀ j, mk j ≠ e) (i n : Nat) :
    e ∉ hookEvs mk i n := by
  intro h
  obtain ⟨j, hj⟩ := mem_hookEvs mk i n e h
  exact hne j hj.symm

theorem applyFinally_events (c : Comp) (mats : List MatBehavior) :
    (applyFinally c mats).2 =
      Ev.setBusy false :: (fanOut Ev.afterHook (mats.map (fun b => b.after))).2 := by
  unfold applyFinally
  cases h : fanOut Ev.afterHook (mats.map (fun b => b.after)) with
  | mk r evs => cases r <;> simp

/-- C1: entering `onReceiveMessage` with `busy = true` returns `false`
immediately — no dispatch, no materializer hook, no settlement of the
caller's promise — so a concurrent second entry for the same actor
never dispatches; entering with `busy = false` first sets `busy`, only
`onAfterMessage` hooks run after the clear-busy step of the `finally`,
and the flag ends false: `busy` is true exactly from the start of
dispatch to the clear-busy step, and handler executions of one actor
never overlap. -/
theorem c1_busy_guard_serializes (a : ActorH) (mats : List MatBehavior)
    (sup : Value → String) (msg : MailMessage) :
    (a.busy = true →
      onReceiveMessage a mats sup msg = ⟨Except.ok false, true, [], none⟩)
    ∧ (a.busy = false →
      (onReceiveMessage a mats sup msg).busy = false
      ∧ (onReceiveMessage a mats sup msg).events =
          Ev.setBusy true ::
            (recvTryCatch mats sup (dispatchAndPromisify a msg.content)).2.1
            ++ Ev.setBusy false :: (fanOut Ev.afterHook (mats.map (fun b => b.after))).2
      ∧ ∀ e ∈ (fanOut Ev.afterHook (mats.map (fun b => b.after))).2,
          ∃ i, e = Ev.afterHook i) := by
  constructor
  · intro h
    simp [onReceiveMessage, h]
  · intro h
    refine ⟨?_, ?_, ?_⟩
    · simp [onReceiveMessage, h]
    · simp [onReceiveMessage, h, applyFinally_events]
    · intro e he
      exact mem_fanOutAux _ _ 0 e he

/-- Witness for C1 at a concrete busy actor and a concrete idle
actor. -/
theorem c1_busy_guard_serializes_witness :
    onReceiveMessage ⟨"sem", true, fun _ => none⟩ [] (fun _ => "stop")
        ⟨"sem", ⟨"runFor", [Value.vnat 5]⟩⟩ = ⟨Except.ok false, true, [], none⟩
    ∧ (onReceiveMessage ⟨"sem", false, fun _ => some (fun _ => Except.ok Value.vunit)⟩ []
        (fun _ => "stop") ⟨"sem", ⟨"runFor", [Value.vnat 5]⟩⟩).busy = false :=
  ⟨(c1_busy_guard_serializes ⟨"sem", true, fun _ => none⟩ [] (fun _ => "stop")
      ⟨"sem", ⟨"runFor", [Value.vnat 5]⟩⟩).1 rfl,
    ((c1_busy_guard_serializes ⟨"sem", false, fun _ => some (fun _ => Except.ok Value.vunit)⟩ []
      (fun _ => "stop") ⟨"sem", ⟨"runFor", [Value.vnat 5]⟩⟩).2 rfl).1⟩

/-- C2: when dispatch throws or rejects (and the materializer hooks
themselves return normally), the supervisor is consulted and the
outcome follows the strategy: `drop-message` rejects the caller's
promise, clears busy, fans `onAfterMessage` over every materializer
and returns `true`; `retry-message` leaves the promise pending, clears
busy, fans out `onAfterMessage` and returns `false`; any other
strategy behaves like `drop-message`. -/
theorem c2_supervision_strategies (a : ActorH) (mats : List MatBehavior)
    (sup : Value → String) (msg : MailMessage) (ex : Value)
    (hb : a.busy = false)
    (hok : ∀ b ∈ mats,
      b.before = Except.ok () ∧ b.onErr = Except.ok () ∧ b.after = Except.ok ())
    (hd : dispatchAndPromisify a msg.content = Except.error ex) :
    (sup ex = "drop-message" →
      onReceiveMessage a mats sup msg =
        ⟨Except.ok true, false,
          Ev.setBusy true :: hookEvs Ev.beforeHook 0 mats.length
            ++ Ev.dispatch :: hookEvs Ev.errorHook 0 mats.length
            ++ [Ev.superviseCall, Ev.rejectCall ex]
            ++ Ev.setBusy false :: hookEvs Ev.afterHook 0 mats.length,
          some (Except.error ex)⟩)
    ∧ (sup ex = "retry-message" →
      onReceiveMessage a mats sup msg =
        ⟨Except.ok false, false,
          Ev.setBusy true :: hookEvs Ev.beforeHook 0 mats.length
            ++ Ev.dispatch :: hookEvs Ev.errorHook 0 mats.length
            ++ [Ev.superviseCall]
            ++ Ev.setBusy false :: hookEvs Ev.afterHook 0 mats.length,
          none⟩)
    ∧ (sup ex ≠ "drop-message" → sup ex ≠ "retry-message" →
      onReceiveMessage a mats sup msg =
        ⟨Except.ok true, false,
          Ev.setBusy true :: hookEvs Ev.beforeHook 0 mats.length
            ++ Ev.dispatch :: hookEvs Ev.errorHook 0 mats.length
            ++ [Ev.superviseCall, Ev.rejectCall ex]
            ++ Ev.setBusy false :: hookEvs Ev.afterHook 0 mats.length,
          some (Except.error ex)⟩) := by
  have hbefore : ∀ x ∈ mats.map (fun b => b.before), x = Except.ok () := by
    intro x hx
    obtain ⟨b, hbm, rfl⟩ := List.mem_map.mp hx
    exact (hok b hbm).1
  have herr : ∀ x ∈ mats.map (fun b => b.onErr), x = Except.ok () := by
    intro x hx
    obtain ⟨b, hbm, rfl⟩ := List.mem_map.mp hx
    exact (hok b hbm).2.1
  have hafter : ∀ x ∈ mats.map (fun b => b.after), x = Except.ok () := by
    intro x hx
    obtain ⟨b, hbm, rfl⟩ := List.mem_map.mp hx
    exact (hok b hbm).2.2
  have hb1 := fanOutAux_allOk Ev.beforeHook _ hbefore 0
  have he1 := fanOutAux_allOk Ev.errorHook _ herr 0
  have ha1 := fanOutAux_allOk Ev.afterHook _ hafter 0
  refine ⟨?_, ?_, ?_⟩
  · intro hs
    simp [onReceiveMessage, hb, recvTryCatch, hd, handleCatch, applyFinally, compToOutcome,
      fanOut, hb1, he1, ha1, hs]
  · intro hs
    simp [onReceiveMessage, hb, recvTryCatch, hd, handleCatch, applyFinally, compToOutcome,
      fanOut, hb1, he1, ha1, hs]
  · intro hs1 hs2
    simp [onReceiveMessage, hb, recvTryCatch, hd, handleCatch, applyFinally, compToOutcome,
      fanOut, hb1, he1, ha1, hs1, hs2]

/-- Witness for C2 at a failing dispatch under the `drop-message` and
`retry-message` strategies with one well-behaved materializer. -/
theorem c2_supervision_strategies_witness :
    onReceiveMessage ⟨"f", false, fun _ => some (fun _ => Except.error (Value.verr "boom"))⟩
        [⟨Except.ok (), Except.ok (), Except.ok ()⟩] (fun _ => "drop-message")
        ⟨"f", ⟨"fails", []⟩⟩ =
      ⟨Except.ok true, false,
        Ev.setBusy true :: hookEvs Ev.beforeHook 0 1
          ++ Ev.dispatch :: hookEvs Ev.errorHook 0 1
          ++ [Ev.superviseCall, Ev.rejectCall (Value.verr "boom")]
          ++ Ev.setBusy false :: hookEvs Ev.afterHook 0 1,
        some (Except.error (Value.verr "boom"))⟩
    ∧ onReceiveMessage ⟨"f", false, fun _ => some (fun _ => Except.error (Value.verr "boom"))⟩
        [⟨Except.ok (), Except.ok (), Except.ok ()⟩] (fun _ => "retry-message")
        ⟨"f", ⟨"fails", []⟩⟩ =
      ⟨Except.ok false, false,
        Ev.setBusy true :: hookEvs Ev.beforeHook 0 1
          ++ Ev.dispatch :: hookEvs Ev.errorHook 0 1
          ++ [Ev.superviseCall]
          ++ Ev.setBusy false :: hookEvs Ev.afterHook 0 1,
        none⟩ :=
  ⟨(c2_supervision_strategies
      ⟨"f", false, fun _ => some (fun _ => Except.error (Value.verr "boom"))⟩
      [⟨Except.ok (), Except.ok (), Except.ok ()⟩] (fun _ => "drop-message")
      ⟨"f", ⟨"fails", []⟩⟩ (Value.verr "boom") rfl
      (by intro b hb; simp at hb; simp [hb]) rfl).1 rfl,
    (c2_supervision_strategies
      ⟨"f", false, fun _ => some (fun _ => Except.error (Value.verr "boom"))⟩
      [⟨Except.ok (), Except.ok (), Except.ok ()⟩] (fun _ => "retry-message")
      ⟨"f", ⟨"fails", []⟩⟩ (Value.verr "boom") rfl
      (by intro b hb; simp at hb; simp [hb]) rfl).2.1 rfl⟩

/-- C3: `Subscription.process` on a non-empty queue invokes the
subscriber exactly on the head; a `true` result removes exactly the
head (the remaining messages keep their order), a `false` result
leaves the queue unchanged; an empty queue does nothing. -/
theorem c3_subscription_process (recv : MailMessage → Bool) (s : Subscription) :
    (s.queue = [] → Subscription.process recv s = (s, []))
    ∧ ∀ m rest, s.queue = m :: rest →
        (Subscription.process recv s).2 = [m]
        ∧ (recv m = true → (Subscription.process recv s).1 = ⟨s.id, rest⟩)
        ∧ (recv m = false → (Subscription.process recv s).1 = s) := by
  obtain ⟨sid, q⟩ := s
  constructor
  · intro h
    simp only at h
    subst h
    simp [Subscription.process]
  · intro m rest h
    simp only at h
    subst h
    by_cases hr : recv m
    · simp [Subscription.process, hr]
    · simp only [Bool.not_eq_true] at hr
      simp [Subscription.process, hr]

/-- Witness for C3 on a two-message queue, consuming and retrying. -/
theorem c3_subscription_process_witness :
    Subscription.process (fun _ => true)
        ⟨"s", [⟨"1", ⟨"a", []⟩⟩, ⟨"1", ⟨"b", []⟩⟩]⟩ =
      (⟨"s", [⟨"1", ⟨"b", []⟩⟩]⟩, [⟨"1", ⟨"a", []⟩⟩])
    ∧ Subscription.process (fun _ => false)
        ⟨"s", [⟨"1", ⟨"a", []⟩⟩, ⟨"1", ⟨"b", []⟩⟩]⟩ =
      (⟨"s", [⟨"1", ⟨"a", []⟩⟩, ⟨"1", ⟨"b", []⟩⟩]⟩, [⟨"1", ⟨"a", []⟩⟩]) := by
  have h1 := (c3_subscription_process (fun _ => true)
    ⟨"s", [⟨"1", ⟨"a", []⟩⟩, ⟨"1", ⟨"b", []⟩⟩]⟩).2 ⟨"1", ⟨"a", []⟩⟩ [⟨"1", ⟨"b", []⟩⟩] rfl
  have h2 := (c3_subscription_process (fun _ => false)
    ⟨"s", [⟨"1", ⟨"a", []⟩⟩, ⟨"1", ⟨"b", []⟩⟩]⟩).2 ⟨"1", ⟨"a", []⟩⟩ [⟨"1", ⟨"b", []⟩⟩] rfl
  refine ⟨?_, ?_⟩
  · have := h1.2.1 rfl
    have hcalls := h1.1
    exact Prod.ext this hcalls
  · have := h2.2.2 rfl
    have hcalls := h2.1
    exact Prod.ext this hcalls

/-- C10: `removeSubscription` on an id that was never returned by
`addSubscriber` (no entry in `subscribedPartitions`) throws — the
lookup yields `undefined` and iterating it fails — and leaves both the
partition-to-subscriptions map and the subscriptionId-to-partitions
map unchanged; likewise an id already removed by a successful
`removeSubscription` throws on a second removal, with the state
unchanged. -/
theorem c10_remove_unknown_throws (mb : Mailbox) (sid : String) :
    (getKey mb.subscribedPartitions sid = none →
      Mailbox.removeSubscription mb sid = ⟨mb, true⟩)
    ∧ ∀ mb', Mailbox.removeSubscription mb sid = ⟨mb', false⟩ →
        Mailbox.removeSubscription mb' sid = ⟨mb', true⟩ := by
  constructor
  · intro h
    simp [Mailbox.removeSubscription, h]
  · intro mb' h
    cases hgk : getKey mb.subscribedPartitions sid with
    | none =>
      rw [Mailbox.removeSubscription, hgk] at h
      cases h
    | some parts =>
      have hrs : Mailbox.removeSubscription mb sid = Mailbox.removeGo sid parts mb := by
        simp [Mailbox.removeSubscription, hgk]
      rw [hrs] at h
      have hth : (Mailbox.removeGo sid parts mb).threw = false := by rw [h]
      have hsp := removeGo_sp sid parts mb hth
      have hmb' : (Mailbox.removeGo sid parts mb).mb = mb' := by rw [h]
      have hnone : getKey mb'.subscribedPartitions sid = none := by
        rw [← hmb', hsp]
        exact getKey_deleteKey_self _ _
      simp [Mailbox.removeSubscription, hnone]

/-- Witness for C10: a fresh empty mailbox throws on removal of an
unknown id, and the mailbox of the repository's unsubscription test
throws on a second removal after the first succeeds. -/
theorem c10_remove_unknown_throws_witness :
    Mailbox.removeSubscription (⟨[], []⟩ : Mailbox) "x" = ⟨⟨[], []⟩, true⟩
    ∧ Mailbox.removeSubscription (⟨[], [("1", [])]⟩ : Mailbox) "s" =
        ⟨⟨[], [("1", [])]⟩, true⟩ :=
  ⟨(c10_remove_unknown_throws ⟨[], []⟩ "x").1 rfl,
    (c10_remove_unknown_throws ⟨[("s", ["1"])], [("1", [⟨"s", []⟩])]⟩ "s").2
      ⟨[], [("1", [])]⟩ (by decide)⟩

/-- C5: after `addSubscriber` returns a fresh id `fs`, a subsequent
`removeSubscription fs` succeeds, removes every `Subscription` with id
`fs` from every partition bucket, erases `fs` from the
subscriptionId-to-partitions map, and a later `poll fs` returns
without invoking any subscriber. -/
theorem c5_add_remove_poll (mb : Mailbox) (fs : String) (ps : List String)
    (recv : MailMessage → Bool)
    (hnodup : (mb.subscriptions.map Prod.fst).Nodup)
    (hfresh : ∀ pr ∈ mb.subscriptions, ∀ s ∈ pr.2, s.id ≠ fs) :
    (Mailbox.removeSubscription (Mailbox.addSubscriber mb fs ps) fs).threw = false
    ∧ (∀ pr ∈ (Mailbox.removeSubscription (Mailbox.addSubscriber mb fs ps) fs).mb.subscriptions,
        ∀ s ∈ pr.2, s.id ≠ fs)
    ∧ getKey
        (Mailbox.removeSubscription (Mailbox.addSubscriber mb fs ps) fs).mb.subscribedPartitions
        fs = none
    ∧ Mailbox.poll recv (Mailbox.removeSubscription (Mailbox.addSubscriber mb fs ps) fs).mb fs
        = ⟨(Mailbox.removeSubscription (Mailbox.addSubscriber mb fs ps) fs).mb, [], false⟩ := by
  have hsp1 : getKey (Mailbox.addSubscriber mb fs ps).subscribedPartitions fs = some ps :=
    getKey_setKey_self _ _ _
  have hred : Mailbox.removeSubscription (Mailbox.addSubscriber mb fs ps) fs =
      Mailbox.removeGo fs ps (Mailbox.addSubscriber mb fs ps) := by
    rw [Mailbox.removeSubscription, hsp1]
  have hnd1 : ((Mailbox.addSubscriber mb fs ps).subscriptions.map Prod.fst).Nodup :=
    foldAdd_nodup fs ps mb.subscriptions hnodup
  have h1 : ∀ p ∈ ps, (getKey (Mailbox.addSubscriber mb fs ps).subscriptions p).isSome = true :=
    fun p hp => foldAdd_bucket_isSome fs ps mb.subscriptions p hp
  have h2 : ∀ pr ∈ (Mailbox.addSubscriber mb fs ps).subscriptions,
      pr.1 ∉ ps → ∀ s ∈ pr.2, s.id ≠ fs := by
    intro pr hpr hnot s hs
    rcases foldAdd_mem_elim fs ps mb.subscriptions pr hpr with h | h
    · exact absurd h hnot
    · exact hfresh pr h s hs
  obtain ⟨hthrew, hsp, hclean⟩ :=
    removeGo_clean fs ps (Mailbox.addSubscriber mb fs ps) hnd1 h1 h2
  have hnone : getKey
      (Mailbox.removeSubscription (Mailbox.addSubscriber mb fs ps) fs).mb.subscribedPartitions
      fs = none := by
    rw [hred, hsp]
    rw [show (Mailbox.addSubscriber mb fs ps).subscribedPartitions =
        setKey mb.subscribedPartitions fs ps from rfl]
    exact getKey_deleteKey_self _ _
  refine ⟨hred ▸ hthrew, hred ▸ hclean, hnone, ?_⟩
  rw [Mailbox.poll, hnone]

/-- Witness for C5 on the empty mailbox with one declared partition. -/
theorem c5_add_remove_poll_witness :
    (Mailbox.removeSubscription (Mailbox.addSubscriber ⟨[], []⟩ "s" ["1"]) "s").threw = false
    ∧ getKey
        (Mailbox.removeSubscription
          (Mailbox.addSubscriber ⟨[], []⟩ "s" ["1"]) "s").mb.subscribedPartitions "s" = none :=
  ⟨(c5_add_remove_poll ⟨[], []⟩ "s" ["1"] (fun _ => true) (by simp) (by simp)).1,
    (c5_add_remove_poll ⟨[], []⟩ "s" ["1"] (fun _ => true) (by simp) (by simp)).2.2.1⟩

/-- C4: `push(m)` on a partition with at least one `Subscription`
appends `m` to the tail of every `Subscription`'s queue of that
partition, leaves the queues of every other partition's
`Subscription`s and the `subscribedPartitions` map unchanged, and
subsequent polls (one head per poll, consumed on `true`) deliver the
whole queue — hence `m` exactly once, after all messages pushed before
it. -/
theorem c4_push_broadcast (mb : Mailbox) (m : MailMessage) (subs : List Subscription)
    (hs : getKey mb.subscriptions m.partition = some subs) (_hne : subs ≠ []) :
    Mailbox.push mb m =
      some
        { mb with
          subscriptions :=
            setKey mb.subscriptions m.partition
              (subs.map (fun s => ⟨s.id, s.queue ++ [m]⟩)) }
    ∧ getKey (setKey mb.subscriptions m.partition
          (subs.map (fun s => ⟨s.id, s.queue ++ [m]⟩))) m.partition
        = some (subs.map (fun s => ⟨s.id, s.queue ++ [m]⟩))
    ∧ (∀ p, p ≠ m.partition →
        getKey (setKey mb.subscriptions m.partition
            (subs.map (fun s => ⟨s.id, s.queue ++ [m]⟩))) p
          = getKey mb.subscriptions p)
    ∧ ∀ s ∈ subs, ∀ n, (s.queue ++ [m]).length ≤ n →
        (Subscription.processN (fun _ => true) n ⟨s.id, s.queue ++ [m]⟩).2 = s.queue ++ [m]
        ∧ (m ∉ s.queue →
            ∃ l1 l2,
              (Subscription.processN (fun _ => true) n ⟨s.id, s.queue ++ [m]⟩).2
                  = l1 ++ m :: l2
                ∧ m ∉ l1 ∧ m ∉ l2) := by
  refine ⟨?_, getKey_setKey_self _ _ _, ?_, ?_⟩
  · simp [Mailbox.push, hs]
  · intro p hp
    exact getKey_setKey_ne _ _ _ _ hp
  · intro s _ n hn
    have hall := processN_true s.id (s.queue ++ [m]) n hn
    refine ⟨by rw [hall], ?_⟩
    intro hnotin
    exact ⟨s.queue, [], by rw [hall], hnotin, by simp⟩

/-- Witness for C4: pushing to partition `"1"` holding one
subscription with one queued message. -/
theorem c4_push_broadcast_witness :
    Mailbox.push ⟨[("s", ["1"])], [("1", [⟨"s", [⟨"1", ⟨"a", []⟩⟩]⟩])]⟩ ⟨"1", ⟨"b", []⟩⟩ =
      some ⟨[("s", ["1"])], [("1", [⟨"s", [⟨"1", ⟨"a", []⟩⟩, ⟨"1", ⟨"b", []⟩⟩]⟩])]⟩
    ∧ (Subscription.processN (fun _ => true) 2
          ⟨"s", [⟨"1", ⟨"a", []⟩⟩, ⟨"1", ⟨"b", []⟩⟩]⟩).2
        = [⟨"1", ⟨"a", []⟩⟩, ⟨"1", ⟨"b", []⟩⟩] := by
  have h := c4_push_broadcast ⟨[("s", ["1"])], [("1", [⟨"s", [⟨"1", ⟨"a", []⟩⟩]⟩])]⟩
    ⟨"1", ⟨"b", []⟩⟩ [⟨"s", [⟨"1", ⟨"a", []⟩⟩]⟩] rfl (by simp)
  refine ⟨?_, ?_⟩
  · have h1 := h.1
    simpa using h1
  · exact (h.2.2.2 ⟨"s", [⟨"1", ⟨"a", []⟩⟩]⟩ (by simp) 2 (by simp)).1

/-- C6: for an id that is not locally registered, `actorFor` walks the
resolvers in registration order absorbing rejections: if resolver `k`
fulfils with an instance while the earlier ones reject, the call
returns a proxy over that instance and installs it — registry entry
under the requested id, subscription-map entry under the instance's
id, mailbox subscription over the instance's partitions; if every
resolver rejects, the call rejects with exactly
`unable to resolve actor <id>`. -/
theorem c6_actorFor_resolver_chain (st : SysState) (id : String) (fs : String)
    (hlocal : getKey st.actors id = none) :
    (∀ (pre rest : List (Except Value ActorInst)) (x : ActorInst),
      (∀ r ∈ pre, ∃ e, r = Except.error e) →
      ActorSystem.actorFor st id (pre ++ Except.ok x :: rest) fs =
        Except.ok
          ({ actors := setKey st.actors id x
             subscriptions := setKey st.subscriptions x.id fs
             mailbox := Mailbox.addSubscriber st.mailbox fs x.partitions }, x))
    ∧ ∀ rs : List (Except Value ActorInst), (∀ r ∈ rs, ∃ e, r = Except.error e) →
        ActorSystem.actorFor st id rs fs =
          Except.error ("unable to resolve actor " ++ id) := by
  constructor
  · intro pre rest x h
    simp [ActorSystem.actorFor, hlocal, firstResolved_first_ok pre rest x h]
  · intro rs h
    simp [ActorSystem.actorFor, hlocal, firstResolved_all_errors rs h]

/-- Witness for C6: one rejecting resolver followed by one fulfilling
with the actor `X`, and the all-rejecting chain, on the empty
system. -/
theorem c6_actorFor_resolver_chain_witness :
    ActorSystem.actorFor ⟨[], [], ⟨[], []⟩⟩ "X"
        [Except.error (Value.verr "nope"), Except.ok ⟨"X", ["X"]⟩] "sub1" =
      Except.ok
        (⟨[("X", ⟨"X", ["X"]⟩)], [("X", "sub1")],
          ⟨[("sub1", ["X"])], [("X", [⟨"sub1", []⟩])]⟩⟩, ⟨"X", ["X"]⟩)
    ∧ ActorSystem.actorFor ⟨[], [], ⟨[], []⟩⟩ "X"
        [Except.error (Value.verr "nope"), Except.error (Value.verr "still no")] "sub1" =
      Except.error "unable to resolve actor X" := by
  have h := c6_actorFor_resolver_chain ⟨[], [], ⟨[], []⟩⟩ "X" "sub1" rfl
  constructor
  · have h1 := h.1 [Except.error (Value.verr "nope")] [] ⟨"X", ["X"]⟩
      (by intro r hr; simp at hr; exact ⟨Value.verr "nope", hr⟩)
    simpa using h1
  · have h2 := h.2 [Except.error (Value.verr "nope"), Except.error (Value.verr "still no")]
      (by
        intro r hr
        simp at hr
        rcases hr with hr | hr
        · exact ⟨Value.verr "nope", hr⟩
        · exact ⟨Value.verr "still no", hr⟩)
    simpa using h2

/-- C7 counterexample: a topic holding the reference that
`subscribeToTopic` registers (the raw actor `"alice"` exposing
`listenSender`): `notify` performs a direct call on the subscriber in
the topic's context and pushes no message into any mailbox, and the
registered reference is not the self proxy — the claim's "produces a
message enqueued into that subscriber's mailbox" and "registers the
actor's self proxy" both fail. -/
theorem c7_notify_counterexample :
    Topic.notify ⟨"topics/t", [("sub1", ⟨subscribeToTopicArg "alice", ["listenSender"]⟩)]⟩
        "listenSender" [Value.vstr "hi"] =
      ([⟨"alice", "listenSender", [Value.vstr "hi"]⟩], [])
    ∧ subscribeToTopicArg "alice" ≠ ActorVal.proxy "alice" := by
  decide

/-- C7 (amended): `subscribeToTopic` registers the raw actor (`this`,
not the self proxy) with the topic, so `notify` invokes the callable
directly on each registered subscriber that exposes it — one direct
call per exposing subscriber, with the given method name and args,
executed in the topic's context — and enqueues no message into any
subscriber's mailbox. -/
theorem c7_notify_direct_calls (t : TopicState) (m : String) (args : List Value)
    (hraw : ∀ pr ∈ t.subscriptions, ∃ aid, pr.2.value = ActorVal.raw aid) :
    (Topic.notify t m args).2 = []
    ∧ (Topic.notify t m args).1.length
        = (t.subscriptions.filter (fun pr => m ∈ pr.2.methods)).length
    ∧ (∀ c ∈ (Topic.notify t m args).1,
        c.methodName = m ∧ c.arguments = args
        ∧ ∃ pr ∈ t.subscriptions, pr.2.value = ActorVal.raw c.target ∧ m ∈ pr.2.methods)
    ∧ ∀ selfId, subscribeToTopicArg selfId = ActorVal.raw selfId := by
  have main : ∀ l : List (String × SubEntry),
      (∀ pr ∈ l, ∃ aid, pr.2.value = ActorVal.raw aid) →
      (notifyGo m args l).2 = []
      ∧ (notifyGo m args l).1.length = (l.filter (fun pr => m ∈ pr.2.methods)).length
      ∧ ∀ c ∈ (notifyGo m args l).1,
          c.methodName = m ∧ c.arguments = args
          ∧ ∃ pr ∈ l, pr.2.value = ActorVal.raw c.target ∧ m ∈ pr.2.methods := by
    intro l
    induction l with
    | nil => intro _; exact ⟨rfl, rfl, by intro c hc; cases hc⟩
    | cons kv rest ih =>
      intro h
      obtain ⟨aid, haid⟩ := h kv (List.mem_cons_self _ _)
      obtain ⟨htail1, htail2, htail3⟩ := ih (fun pr hpr => h pr (List.mem_cons_of_mem _ hpr))
      by_cases hm : m ∈ kv.2.methods
      · have hred : notifyGo m args (kv :: rest) =
            (⟨aid, m, args⟩ :: (notifyGo m args rest).1, (notifyGo m args rest).2) := by
          simp [notifyGo, hm, haid]
        refine ⟨by rw [hred]; exact htail1, ?_, ?_⟩
        · rw [hred]
          simp [List.filter_cons, hm, htail2]
        · intro c hc
          rw [hred] at hc
          rcases List.mem_cons.mp hc with h1 | h1
          · subst h1
            exact ⟨rfl, rfl, kv, List.mem_cons_self _ _, haid, hm⟩
          · obtain ⟨hc1, hc2, pr, hpr, hpv, hpm⟩ := htail3 c h1
            exact ⟨hc1, hc2, pr, List.mem_cons_of_mem _ hpr, hpv, hpm⟩
      · have hred : notifyGo m args (kv :: rest) = notifyGo m args rest := by
          simp [notifyGo, hm]
        refine ⟨by rw [hred]; exact htail1, ?_, ?_⟩
        · rw [hred]
          simp [List.filter_cons, hm, htail2]
        · intro c hc
          rw [hred] at hc
          obtain ⟨hc1, hc2, pr, hpr, hpv, hpm⟩ := htail3 c hc
          exact ⟨hc1, hc2, pr, List.mem_cons_of_mem _ hpr, hpv, hpm⟩
  obtain ⟨h1, h2, h3⟩ := main t.subscriptions hraw
  exact ⟨h1, h2, h3, fun _ => rfl⟩

/-- Witness for the amended C7 on a topic with one raw subscriber
exposing the notified method. -/
theorem c7_notify_direct_calls_witness :
    (Topic.notify ⟨"topics/t", [("sub1", ⟨ActorVal.raw "alice", ["listenSender"]⟩)]⟩
        "listenSender" [Value.vstr "hi"]).2 = []
    ∧ (Topic.notify ⟨"topics/t", [("sub1", ⟨ActorVal.raw "alice", ["listenSender"]⟩)]⟩
        "listenSender" [Value.vstr "hi"]).1.length = 1 :=
  ⟨(c7_notify_direct_calls ⟨"topics/t", [("sub1", ⟨ActorVal.raw "alice", ["listenSender"]⟩)]⟩
      "listenSender" [Value.vstr "hi"]
      (by intro pr hpr; simp at hpr; exact ⟨"alice", by simp [hpr]⟩)).1,
    ((c7_notify_direct_calls ⟨"topics/t", [("sub1", ⟨ActorVal.raw "alice", ["listenSender"]⟩)]⟩
      "listenSender" [Value.vstr "hi"]
      (by intro pr hpr; simp at hpr; exact ⟨"alice", by simp [hpr]⟩)).2.1).trans (by decide)⟩

/-- C8 counterexample: an actor whose method dispatch would succeed
(returning 7), with one materializer whose `onBeforeMessage` throws:
the harness does not swallow the exception — the supervisor is
consulted and the caller's promise is rejected with the hook's
exception instead of being resolved with the method's result. -/
theorem c8_materializer_throw_counterexample :
    dispatchAndPromisify
        ⟨"a", false, fun n => if n = "m" then some (fun _ => Except.ok (Value.vnat 7)) else none⟩
        ⟨"m", []⟩ = Except.ok (Value.vnat 7)
    ∧ (onReceiveMessage
        ⟨"a", false, fun n => if n = "m" then some (fun _ => Except.ok (Value.vnat 7)) else none⟩
        [⟨Except.error (Value.verr "hook boom"), Except.ok (), Except.ok ()⟩]
        (fun _ => "escalate") ⟨"a", ⟨"m", []⟩⟩).settlement
        = some (Except.error (Value.verr "hook boom"))
    ∧ Ev.superviseCall ∈ (onReceiveMessage
        ⟨"a", false, fun n => if n = "m" then some (fun _ => Except.ok (Value.vnat 7)) else none⟩
        [⟨Except.error (Value.verr "hook boom"), Except.ok (), Except.ok ()⟩]
        (fun _ => "escalate") ⟨"a", ⟨"m", []⟩⟩).events := by
  refine ⟨by decide, by decide, by decide⟩

/-- C8 (amended): materializer exceptions are not swallowed.  An
`onBeforeMessage` throw enters the catch block before dispatch: the
method is never dispatched, `onError` and the supervisor run, and the
caller's promise is rejected with the hook's exception (or left
pending under `retry-message`).  An `onAfterMessage` throw escapes
`onReceiveMessage` as a rejection (replacing the boolean result) after
the caller's promise was already resolved and busy cleared.  An
`onError` throw likewise escapes without consulting the supervisor. -/
theorem c8_materializer_errors_not_swallowed (a : ActorH) (sup : Value → String)
    (msg : MailMessage) (hb : a.busy = false) :
    (∀ (mats : List MatBehavior) (e : Value) (pre post : List (Except Value Unit)),
      mats.map (fun b => b.before) = pre ++ Except.error e :: post →
      (∀ x ∈ pre, x = Except.ok ()) →
      (∀ b ∈ mats, b.onErr = Except.ok () ∧ b.after = Except.ok ()) →
      Ev.dispatch ∉ (onReceiveMessage a mats sup msg).events
      ∧ Ev.superviseCall ∈ (onReceiveMessage a mats sup msg).events
      ∧ (sup e = "retry-message" →
          (onReceiveMessage a mats sup msg).outcome = Except.ok false
          ∧ (onReceiveMessage a mats sup msg).settlement = none)
      ∧ (sup e ≠ "retry-message" →
          (onReceiveMessage a mats sup msg).outcome = Except.ok true
          ∧ (onReceiveMessage a mats sup msg).settlement = some (Except.error e)))
    ∧ (∀ (mats : List MatBehavior) (v e : Value) (pre post : List (Except Value Unit)),
      (∀ b ∈ mats, b.before = Except.ok ()) →
      dispatchAndPromisify a msg.content = Except.ok v →
      mats.map (fun b => b.after) = pre ++ Except.error e :: post →
      (∀ x ∈ pre, x = Except.ok ()) →
      (onReceiveMessage a mats sup msg).outcome = Except.error e
      ∧ (onReceiveMessage a mats sup msg).settlement = some (Except.ok v)
      ∧ (onReceiveMessage a mats sup msg).busy = false)
    ∧ (∀ (mats : List MatBehavior) (ex e : Value) (pre post : List (Except Value Unit)),
      (∀ b ∈ mats, b.before = Except.ok ()) →
      dispatchAndPromisify a msg.content = Except.error ex →
      mats.map (fun b => b.onErr) = pre ++ Except.error e :: post →
      (∀ x ∈ pre, x = Except.ok ()) →
      (∀ b ∈ mats, b.after = Except.ok ()) →
      (onReceiveMessage a mats sup msg).outcome = Except.error e
      ∧ (onReceiveMessage a mats sup msg).settlement = none
      ∧ (onReceiveMessage a mats sup msg).busy = false
      ∧ Ev.superviseCall ∉ (onReceiveMessage a mats sup msg).events) := by
  refine ⟨?_, ?_, ?_⟩
  · intro mats e pre post hbm hpre hrest
    have herr : ∀ x ∈ mats.map (fun b => b.onErr), x = Except.ok () := by
      intro x hx
      obtain ⟨b, hbmem, rfl⟩ := List.mem_map.mp hx
      exact (hrest b hbmem).1
    have hafter : ∀ x ∈ mats.map (fun b => b.after), x = Except.ok () := by
      intro x hx
      obtain ⟨b, hbmem, rfl⟩ := List.mem_map.mp hx
      exact (hrest b hbmem).2
    have hbfan : fanOutAux Ev.beforeHook 0 (mats.map (fun b => b.before)) =
        (Except.error e, hookEvs Ev.beforeHook 0 pre.length ++ [Ev.beforeHook pre.length]) := by
      rw [hbm, fanOutAux_firstError Ev.beforeHook pre post e hpre 0]
      simp
    have hefan := fanOutAux_allOk Ev.errorHook _ herr 0
    have hafan := fanOutAux_allOk Ev.afterHook _ hafter 0
    have hrec : ∀ extraRej sett out,
        (if sup e = "drop-message" then
          (extraRej = [Ev.rejectCall e] ∧ sett = some (Except.error e) ∧ out = Except.ok true)
        else if sup e = "retry-message" then
          (extraRej = ([] : List Ev) ∧ sett = none ∧ out = Except.ok false)
        else
          (extraRej = [Ev.rejectCall e] ∧ sett = some (Except.error e) ∧ out = Except.ok true)) →
        onReceiveMessage a mats sup msg =
          ⟨out, false,
            Ev.setBusy true ::
              ((hookEvs Ev.beforeHook 0 pre.length ++ [Ev.beforeHook pre.length])
                ++ hookEvs Ev.errorHook 0 mats.length ++ [Ev.superviseCall] ++ extraRej)
              ++ Ev.setBusy false :: hookEvs Ev.afterHook 0 mats.length,
            sett⟩ := by
      intro extraRej sett out hcases
      by_cases h1 : sup e = "drop-message"
      · simp only [h1, if_pos] at hcases
        obtain ⟨rfl, rfl, rfl⟩ := hcases
        simp [onReceiveMessage, hb, recvTryCatch, hbfan, handleCatch, fanOut, hefan, hafan,
          applyFinally, compToOutcome, h1]
      · by_cases h2 : sup e = "retry-message"
        · simp only [h1, h2, if_neg, not_false_iff, if_pos] at hcases
          obtain ⟨rfl, rfl, rfl⟩ := hcases
          simp [onReceiveMessage, hb, recvTryCatch, hbfan, handleCatch, fanOut, hefan, hafan,
            applyFinally, compToOutcome, h1, h2]
        · simp only [h1, h2, if_neg, not_false_iff] at hcases
          obtain ⟨rfl, rfl, rfl⟩ := hcases
          simp [onReceiveMessage, hb, recvTryCatch, hbfan, handleCatch, fanOut, hefan, hafan,
            applyFinally, compToOutcome, h1, h2]
    have hnotd : ∀ extraRej sett out,
        onReceiveMessage a mats sup msg =
          ⟨out, false,
            Ev.setBusy true ::
              ((hookEvs Ev.beforeHook 0 pre.length ++ [Ev.beforeHook pre.length])
                ++ hookEvs Ev.errorHook 0 mats.length ++ [Ev.superviseCall] ++ extraRej)
              ++ Ev.setBusy false :: hookEvs Ev.afterHook 0 mats.length,
            sett⟩ →
        (extraRej = [] ∨ extraRej = [Ev.rejectCall e]) →
        Ev.dispatch ∉ (onReceiveMessage a mats sup msg).events
        ∧ Ev.superviseCall ∈ (onReceiveMessage a mats sup msg).events := by
      intro extraRej sett out heq hcase
      rw [heq]
      have hnb := not_mem_hookEvs Ev.beforeHook Ev.dispatch (by intro j h''; cases h'') 0
        pre.length
      have hne := not_mem_hookEvs Ev.errorHook Ev.dispatch (by intro j h''; cases h'') 0
        mats.length
      have hna := not_mem_hookEvs Ev.afterHook Ev.dispatch (by intro j h''; cases h'') 0
        mats.length
      constructor
      · intro hmem
        rcases hcase with rfl | rfl <;>
          simp [List.mem_cons, List.mem_append, hnb, hne, hna] at hmem
      · simp
    by_cases h2 : sup e = "retry-message"
    · have heq := hrec [] none (Except.ok false) (by
        have h1 : sup e ≠ "drop-message" := by rw [h2]; decide
        simp [h1, h2])
      obtain ⟨hnd, hsc⟩ := hnotd [] none (Except.ok false) heq (Or.inl rfl)
      refine ⟨hnd, hsc, ?_, ?_⟩
      · intro _
        rw [heq]
        exact ⟨rfl, rfl⟩
      · intro hcon
        exact absurd h2 hcon
    · have heq := hrec [Ev.rejectCall e] (some (Except.error e)) (Except.ok true) (by
        by_cases h1 : sup e = "drop-message" <;> simp [h1, h2])
      obtain ⟨hnd, hsc⟩ := hnotd [Ev.rejectCall e] (some (Except.error e)) (Except.ok true)
        heq (Or.inr rfl)
      refine ⟨hnd, hsc, ?_, ?_⟩
      · intro hcon
        exact absurd hcon h2
      · intro _
        rw [heq]
        exact ⟨rfl, rfl⟩
  · intro mats v e pre post hbok hd ham hpre
    have hbefore : ∀ x ∈ mats.map (fun b => b.before), x = Except.ok () := by
      intro x hx
      obtain ⟨b, hbmem, rfl⟩ := List.mem_map.mp hx
      exact hbok b hbmem
    have hbfan := fanOutAux_allOk Ev.beforeHook _ hbefore 0
    have hafan : fanOutAux Ev.afterHook 0 (mats.map (fun b => b.after)) =
        (Except.error e, hookEvs Ev.afterHook 0 pre.length ++ [Ev.afterHook pre.length]) := by
      rw [ham, fanOutAux_firstError Ev.afterHook pre post e hpre 0]
      simp
    refine ⟨?_, ?_, ?_⟩ <;>
      simp [onReceiveMessage, hb, recvTryCatch, fanOut, hbfan, hd, applyFinally, hafan,
        compToOutcome]
  · intro mats ex e pre post hbok hd hem hpre hafterok
    have hbefore : ∀ x ∈ mats.map (fun b => b.before), x = Except.ok () := by
      intro x hx
      obtain ⟨b, hbmem, rfl⟩ := List.mem_map.mp hx
      exact hbok b hbmem
    have hafter : ∀ x ∈ mats.map (fun b => b.after), x = Except.ok () := by
      intro x hx
      obtain ⟨b, hbmem, rfl⟩ := List.mem_map.mp hx
      exact hafterok b hbmem
    have hbfan := fanOutAux_allOk Ev.beforeHook _ hbefore 0
    have hafan := fanOutAux_allOk Ev.afterHook _ hafter 0
    have hefan : fanOutAux Ev.errorHook 0 (mats.map (fun b => b.onErr)) =
        (Except.error e, hookEvs Ev.errorHook 0 pre.length ++ [Ev.errorHook pre.length]) := by
      rw [hem, fanOutAux_firstError Ev.errorHook pre post e hpre 0]
      simp
    have heq : onReceiveMessage a mats sup msg =
        ⟨Except.error e, false,
          Ev.setBusy true ::
            ((hookEvs Ev.beforeHook 0 mats.length ++ [Ev.dispatch])
              ++ (hookEvs Ev.errorHook 0 pre.length ++ [Ev.errorHook pre.length]))
            ++ Ev.setBusy false :: hookEvs Ev.afterHook 0 mats.length,
          none⟩ := by
      simp [onReceiveMessage, hb, recvTryCatch, fanOut, hbfan, hd, handleCatch, hefan,
        applyFinally, hafan, compToOutcome]
    rw [heq]
    have hnb := not_mem_hookEvs Ev.beforeHook Ev.superviseCall (by intro j h''; cases h'') 0
      mats.length
    have hne := not_mem_hookEvs Ev.errorHook Ev.superviseCall (by intro j h''; cases h'') 0
      pre.length
    have hna := not_mem_hookEvs Ev.afterHook Ev.superviseCall (by intro j h''; cases h'') 0
      mats.length
    refine ⟨rfl, rfl, rfl, ?_⟩
    intro hmem
    simp [List.mem_cons, List.mem_append, hnb, hne, hna] at hmem

/-- Witness for the amended C8: the concrete throwing-`onBeforeMessage`
scenario of the counterexample, via part (a) of the theorem. -/
theorem c8_materializer_errors_not_swallowed_witness :
    Ev.dispatch ∉ (onReceiveMessage
        ⟨"a", false, fun n => if n = "m" then some (fun _ => Except.ok (Value.vnat 7)) else none⟩
        [⟨Except.error (Value.verr "hook boom"), Except.ok (), Except.ok ()⟩]
        (fun _ => "escalate") ⟨"a", ⟨"m", []⟩⟩).events
    ∧ Ev.superviseCall ∈ (onReceiveMessage
        ⟨"a", false, fun n => if n = "m" then some (fun _ => Except.ok (Value.vnat 7)) else none⟩
        [⟨Except.error (Value.verr "hook boom"), Except.ok (), Except.ok ()⟩]
        (fun _ => "escalate") ⟨"a", ⟨"m", []⟩⟩).events := by
  have h := (c8_materializer_errors_not_swallowed
    ⟨"a", false, fun n => if n = "m" then some (fun _ => Except.ok (Value.vnat 7)) else none⟩
    (fun _ => "escalate") ⟨"a", ⟨"m", []⟩⟩ rfl).1
    [⟨Except.error (Value.verr "hook boom"), Except.ok (), Except.ok ()⟩]
    (Value.verr "hook boom") [] [] rfl (by intro x hx; cases hx)
    (by intro b hbm; simp at hbm; simp [hbm])
  exact ⟨h.1, h.2.1⟩

theorem sysInv_actorOf (st : SysState) (inst : ActorInst) (fs : String)
    (hinv : SysInv st)
    (ha : getKey st.actors inst.id = none)
    (hsub : getKey st.subscriptions inst.id = none)
    (hpart : inst.partitions = [inst.id])
    (hcnt : countSubs st.mailbox fs = 0)
    (hfs : ∀ pr ∈ st.subscriptions, pr.2 ≠ fs) :
    SysInv (ActorSystem.actorOf st inst fs) := by
  obtain ⟨hnd, hids, huniq, horph⟩ := hinv
  have hmbsubs : (ActorSystem.actorOf st inst fs).mailbox.subscriptions
      = addPartition fs st.mailbox.subscriptions inst.id := by
    simp [ActorSystem.actorOf, Mailbox.addSubscriber, hpart]
  have hacts : (ActorSystem.actorOf st inst fs).actors = setKey st.actors inst.id inst := rfl
  have hsubs : (ActorSystem.actorOf st inst fs).subscriptions
      = setKey st.subscriptions inst.id fs := rfl
  have hacts2 : setKey st.actors inst.id inst = st.actors ++ [(inst.id, inst)] :=
    setKey_of_fresh _ _ _ ha
  have hsubs2 : setKey st.subscriptions inst.id fs = st.subscriptions ++ [(inst.id, fs)] :=
    setKey_of_fresh _ _ _ hsub
  have hanew : ∀ pr ∈ st.actors, pr.1 ≠ inst.id := getKey_none_forall _ _ ha
  refine ⟨?_, ?_, ?_, ?_⟩
  · rw [hmbsubs]
    exact nodup_addPartition fs _ inst.id hnd
  · intro pr hpr
    rw [hacts, hacts2] at hpr
    rcases List.mem_append.mp hpr with h1 | h1
    · exact hids pr h1
    · have : pr = (inst.id, inst) := List.mem_singleton.mp h1
      subst this
      exact ⟨rfl, hpart⟩
  · intro pr hpr
    rw [hacts, hacts2] at hpr
    rcases List.mem_append.mp hpr with h1 | h1
    · obtain ⟨sid, hgk, hone, subs0, hb0, hbmem⟩ := huniq pr h1
      refine ⟨sid, ?_, ?_, subs0, ?_, hbmem⟩
      · rw [hsubs, getKey_setKey_ne _ _ _ _ (hanew pr h1)]
        exact hgk
      · have hne : fs ≠ sid := by
          have hmem := getKey_some_mem _ _ _ hgk
          exact fun hh => hfs (pr.1, sid) hmem (hh ▸ rfl)
        rw [show countSubs (ActorSystem.actorOf st inst fs).mailbox sid
            = countSubsL (addPartition fs st.mailbox.subscriptions inst.id) sid from by
              rw [countSubs, hmbsubs]]
        rw [countSubsL_addPartition fs _ inst.id sid]
        simp [hne]
        exact hone
      · rw [hmbsubs, addPartition_getKey_ne fs _ inst.id pr.1 (hanew pr h1)]
        exact hb0
    · have : pr = (inst.id, inst) := List.mem_singleton.mp h1
      subst this
      refine ⟨fs, ?_, ?_, ?_⟩
      · rw [hsubs]
        exact getKey_setKey_self _ _ _
      · rw [show countSubs (ActorSystem.actorOf st inst fs).mailbox fs
            = countSubsL (addPartition fs st.mailbox.subscriptions inst.id) fs from by
              rw [countSubs, hmbsubs]]
        rw [countSubsL_addPartition fs _ inst.id fs]
        rw [countSubs] at hcnt
        simp [hcnt]
      · refine ⟨(getKey st.mailbox.subscriptions inst.id).getD [] ++ [⟨fs, []⟩], ?_, ?_⟩
        · rw [hmbsubs]
          exact addPartition_getKey_self fs _ inst.id
        · simp
  · intro pr hpr s hs
    rw [hmbsubs] at hpr
    rcases mem_setKey_elim st.mailbox.subscriptions inst.id _ pr hpr with h1 | h1
    · subst h1
      rcases List.mem_append.mp hs with h2 | h2
      · cases hbq : getKey st.mailbox.subscriptions inst.id with
        | none => rw [hbq] at h2; cases h2
        | some subs0 =>
          rw [hbq] at h2
          obtain ⟨aid0, haid0⟩ := horph (inst.id, subs0) (getKey_some_mem _ _ _ hbq) s h2
          refine ⟨aid0, ?_⟩
          rw [hsubs, hsubs2]
          exact List.mem_append_left _ haid0
      · have : s = ⟨fs, []⟩ := List.mem_singleton.mp h2
        subst this
        refine ⟨inst.id, ?_⟩
        rw [hsubs]
        exact self_mem_setKey _ _ _
    · obtain ⟨aid0, haid0⟩ := horph pr h1 s hs
      refine ⟨aid0, ?_⟩
      rw [hsubs, hsubs2]
      exact List.mem_append_left _ haid0

/-- C9 counterexample: two `actorOf` calls constructing actors with
the same id `"a"`.  Afterwards the registry's subscription map holds
only the new id `"s2"`, yet the partition bucket of `"a"` still holds
two `Subscription`s — the old `"s1"` remains, orphaned (no
subscription-map entry references it) — refuting "exactly one
Subscription … no orphaned Subscription remains". -/
theorem c9_duplicate_actorOf_counterexample :
    (ActorSystem.actorOf (ActorSystem.actorOf ⟨[], [], ⟨[], []⟩⟩ ⟨"a", ["a"]⟩ "s1")
        ⟨"a", ["a"]⟩ "s2").subscriptions = [("a", "s2")]
    ∧ getKey (ActorSystem.actorOf (ActorSystem.actorOf ⟨[], [], ⟨[], []⟩⟩ ⟨"a", ["a"]⟩ "s1")
        ⟨"a", ["a"]⟩ "s2").mailbox.subscriptions "a" = some [⟨"s1", []⟩, ⟨"s2", []⟩]
    ∧ countSubs (ActorSystem.actorOf (ActorSystem.actorOf ⟨[], [], ⟨[], []⟩⟩ ⟨"a", ["a"]⟩ "s1")
        ⟨"a", ["a"]⟩ "s2").mailbox "s1" = 1
    ∧ ∀ pr ∈ (ActorSystem.actorOf (ActorSystem.actorOf ⟨[], [], ⟨[], []⟩⟩ ⟨"a", ["a"]⟩ "s1")
        ⟨"a", ["a"]⟩ "s2").subscriptions, pr.2 ≠ "s1" := by
  refine ⟨by decide, by decide, by decide, by decide⟩

/-- C9 (amended): the exactly-one-subscription / no-orphan invariant
holds for every state reachable by `actorOf` and successful `actorFor`
calls whose actor ids are fresh (pairwise distinct) and whose uuid
subscription ids are fresh: it holds in the empty system and is
preserved by both operations.  (With a repeated actor id the previous
`Subscription` stays in the partition bucket, orphaned — see the
counterexample.) -/
theorem c9_registry_subscription_invariant :
    SysInv ⟨[], [], ⟨[], []⟩⟩
    ∧ (∀ st inst fs, SysInv st →
        getKey st.actors inst.id = none →
        getKey st.subscriptions inst.id = none →
        inst.partitions = [inst.id] →
        countSubs st.mailbox fs = 0 →
        (∀ pr ∈ st.subscriptions, pr.2 ≠ fs) →
        SysInv (ActorSystem.actorOf st inst fs))
    ∧ (∀ st id rs fs st' x, SysInv st →
        ActorSystem.actorFor st id rs fs = Except.ok (st', x) →
        getKey st.actors id = none →
        x.id = id →
        x.partitions = [x.id] →
        getKey st.subscriptions id = none →
        countSubs st.mailbox fs = 0 →
        (∀ pr ∈ st.subscriptions, pr.2 ≠ fs) →
        SysInv st') := by
  refine ⟨?_, ?_, ?_⟩
  · refine ⟨by simp, ?_, ?_, ?_⟩
    · intro pr hpr; cases hpr
    · intro pr hpr; cases hpr
    · intro pr hpr; cases hpr
  · intro st inst fs hinv ha hsub hpart hcnt hfs
    exact sysInv_actorOf st inst fs hinv ha hsub hpart hcnt hfs
  · intro st id rs fs st' x hinv heq hlocal hid hpart hsubf hcnt hfs
    rw [ActorSystem.actorFor] at heq
    rw [hlocal] at heq
    cases hres : firstResolved rs with
    | none => rw [hres] at heq; cases heq
    | some inst =>
      rw [hres] at heq
      simp only [Except.ok.injEq, Prod.mk.injEq] at heq
      obtain ⟨hst', hx⟩ := heq
      subst hx
      subst hst'
      have hform :
          ({ actors := setKey st.actors id inst
             subscriptions := setKey st.subscriptions inst.id fs
             mailbox := Mailbox.addSubscriber st.mailbox fs inst.partitions } : SysState)
            = ActorSystem.actorOf st inst fs := by
        rw [ActorSystem.actorOf, hid]
      rw [hform]
      refine sysInv_actorOf st inst fs hinv ?_ ?_ hpart hcnt hfs
      · rw [hid]; exact hlocal
      · rw [hid]; exact hsubf

/-- Witness for the amended C9: registering one fresh actor in the
empty system preserves the invariant. -/
theorem c9_registry_subscription_invariant_witness :
    SysInv (ActorSystem.actorOf ⟨[], [], ⟨[], []⟩⟩ ⟨"a", ["a"]⟩ "s1") :=
  c9_registry_subscription_invariant.2.1 ⟨[], [], ⟨[], []⟩⟩ ⟨"a", ["a"]⟩ "s1"
    c9_registry_subscription_invariant.1 rfl rfl rfl rfl (by intro pr hpr; cases hpr)

/-- The repository's "poll messages from producers and offer them to
subscribers" mailbox test: subscribe on partition `"1"`, push one
message, poll — the subscriber receives exactly that message and the
queue is empty afterwards. -/
theorem mailbox_push_then_poll_scenario :
    Mailbox.push (Mailbox.addSubscriber ⟨[], []⟩ "s" ["1"]) ⟨"1", ⟨"testMethod", []⟩⟩ =
      some ⟨[("s", ["1"])], [("1", [⟨"s", [⟨"1", ⟨"testMethod", []⟩⟩]⟩])]⟩
    ∧ Mailbox.poll (fun _ => true)
        ⟨[("s", ["1"])], [("1", [⟨"s", [⟨"1", ⟨"testMethod", []⟩⟩]⟩])]⟩ "s" =
      ⟨⟨[("s", ["1"])], [("1", [⟨"s", []⟩])]⟩, [⟨"1", ⟨"testMethod", []⟩⟩], false⟩ := by
  refine ⟨by decide, by decide⟩

/-- The repository's "not poll messages after an unsubscription"
mailbox test: removing the subscription between push and poll leaves
the poll with no work. -/
theorem mailbox_unsubscribe_before_poll_scenario :
    Mailbox.removeSubscription ⟨[("s", ["1"])], [("1", [⟨"s", [⟨"1", ⟨"testMethod", []⟩⟩]⟩])]⟩
      "s" = ⟨⟨[], [("1", [])]⟩, false⟩
    ∧ Mailbox.poll (fun _ => true) ⟨[], [("1", [])]⟩ "s" = ⟨⟨[], [("1", [])]⟩, [], false⟩ := by
  refine ⟨by decide, by decide⟩

/-- A successful dispatch: set busy, `onBeforeMessage`, dispatch,
resolve with the method's result, clear busy in the `finally`,
`onAfterMessage`, return `true`. -/
theorem onReceiveMessage_success_scenario :
    onReceiveMessage
      ⟨"a", false, fun n => if n = "m" then some (fun _ => Except.ok (Value.vnat 7)) else none⟩
      [⟨Except.ok (), Except.ok (), Except.ok ()⟩] (fun _ => "stop") ⟨"a", ⟨"m", []⟩⟩ =
      ⟨Except.ok true, false,
        [Ev.setBusy true, Ev.beforeHook 0, Ev.dispatch, Ev.resolveCall (Value.vnat 7),
          Ev.setBusy false, Ev.afterHook 0],
        some (Except.ok (Value.vnat 7))⟩ := by
  decide

/-- Dispatch of a missing method rejects with the documented
`Method <name> not found` error and runs the error path. -/
theorem onReceiveMessage_method_not_found_scenario :
    dispatchAndPromisify ⟨"a", false, fun _ => none⟩ ⟨"ghost", []⟩ =
      Except.error (Value.verr "Method ghost not found")
    ∧ (onReceiveMessage ⟨"a", false, fun _ => none⟩ [] (fun _ => "stop")
        ⟨"a", ⟨"ghost", []⟩⟩).settlement =
      some (Except.error (Value.verr "Method ghost not found")) := by
  refine ⟨by decide, by decide⟩
